import Mathlib

/-!
Verification development for the pythfarms voting-allocation optimizer.

The numeric core of the repository is the "equal-marginal" solver
(`scripts/shadow/lib/optimizer.py`, `equal_marginal`; duplicated with the same
algorithm in `scripts/algo/advanced_optimizer_aggressive.py`
(`compute_optimal_allocation`), `scripts/algo/advanced_optimizer_variable.py`
and `scripts/algo/advanced_optimizer_with_avoidance.py`
(`compute_agg_allocation`), and `scripts/aero/algo/optimizer_corrected_logic.py`
(`equal_marginal`)), together with the blending, avoidance-penalty and re-run
adjustment layers built on top of it.

The Python code performs its arithmetic with `decimal.Decimal` at 50
significant digits.  Following the specification's numeric-semantics section
(high-precision decimal arithmetic, treated as exact for the core loop), the
shallow embedding models the arithmetic as exact real arithmetic: `Decimal`
values become `ℝ`, `Decimal.sqrt` becomes `Real.sqrt`, `Decimal.__pow__`
becomes `Real.rpow` (with the one genuinely partial case, `0 ** 0`, modelled
explicitly, since Python's `decimal` raises `InvalidOperation` there).
A raised `RuntimeError` is modelled by `none`; a normal return by `some`.
Pool identifiers are modelled as `String`; an input triple `(p, R, W)` from
the Python lists becomes `String × ℝ × ℝ`.
-/

open Classical

/-- Tolerance for the bisection on λ: `TOL = Decimal("1e-12")` in
`scripts/shadow/lib/optimizer.py` line 16 (same constant in every copy). -/
noncomputable def TOL : ℝ := 1e-12

/-- The active-set filter of `equal_marginal`
(`scripts/shadow/lib/optimizer.py` line 38):
`active = [(p, R, W) for (p, R, W) in RW if R > 0 and W >= 0]`. -/
noncomputable def activeOf : List (String × ℝ × ℝ) → List (String × ℝ × ℝ)
  | [] => []
  | t :: ts => if 0 < t.2.1 ∧ 0 ≤ t.2.2 then t :: activeOf ts else activeOf ts

/-- One pool's contribution inside `sum_delta`
(`scripts/shadow/lib/optimizer.py` lines 44-50): skip the pool when
`R*W <= 0`, otherwise add `d = sqrt(R*W/lam) - W` when `d > 0`. -/
noncomputable def contrib (lam : ℝ) (t : String × ℝ × ℝ) : ℝ :=
  if t.2.1 * t.2.2 ≤ 0 then 0
  else if 0 < Real.sqrt (t.2.1 * t.2.2 / lam) - t.2.2
       then Real.sqrt (t.2.1 * t.2.2 / lam) - t.2.2 else 0

/-- `sum_delta(lam)` of `equal_marginal`
(`scripts/shadow/lib/optimizer.py` lines 42-51): the sum of the clamped
closed-form deltas over the active set. -/
noncomputable def sumDelta (active : List (String × ℝ × ℝ)) (lam : ℝ) : ℝ :=
  (active.map (contrib lam)).sum

/-- The λ-bracketing loop (`scripts/shadow/lib/optimizer.py` lines 53-59):
starting from `hi`, check `sum_delta(hi) < P` up to `n` times, doubling `hi`
after each failed check; `none` models the `raise RuntimeError` of the
for-else. The solver calls it with `n = 200`, `hi = 1`. -/
noncomputable def bracketHi (S : ℝ → ℝ) (P : ℝ) : Nat → ℝ → Option ℝ
  | 0, _ => none
  | n + 1, hi => if S hi < P then some hi else bracketHi S P n (2 * hi)

/-- The bisection loop (`scripts/shadow/lib/optimizer.py` lines 61-72): up to
`n` iterations (`MAX_ITERS = 100`); at each step `mid = (lo+hi)/2`; break with
`lam = mid` when `|sum_delta(mid) - P| < TOL`, otherwise move `lo` up when
`sum_delta(mid) > P` and `hi` down when not; the for-else fallback returns
`lam = lo`.  The `Bool` component instruments whether the tolerance test fired
(`true`) or the fallback was taken (`false`); the λ value returned is exactly
the Python one in both cases. -/
noncomputable def bisect (S : ℝ → ℝ) (P : ℝ) : Nat → ℝ → ℝ → ℝ × Bool
  | 0, lo, _ => (lo, false)
  | n + 1, lo, hi =>
      if |S ((lo + hi) / 2) - P| < TOL then ((lo + hi) / 2, true)
      else if P < S ((lo + hi) / 2) then bisect S P n ((lo + hi) / 2) hi
      else bisect S P n lo ((lo + hi) / 2)

/-- The final per-pool delta (`scripts/shadow/lib/optimizer.py` lines 74-81):
a pool with `R <= 0 or W < 0` gets `0`; an eligible pool gets
`d = sqrt(R*W/lam) - W` clamped below at `0`. -/
noncomputable def finalDelta (lam : ℝ) (t : String × ℝ × ℝ) : String × ℝ :=
  if t.2.1 ≤ 0 ∨ t.2.2 < 0 then (t.1, 0)
  else if 0 < Real.sqrt (t.2.1 * t.2.2 / lam) - t.2.2
       then (t.1, Real.sqrt (t.2.1 * t.2.2 / lam) - t.2.2) else (t.1, 0)

/-- `equal_marginal(RW, P)` (`scripts/shadow/lib/optimizer.py` lines 33-81):
if the active set is empty return all-zero allocations; otherwise bracket λ
from `lo = 1e-30`, `hi = 1` with at most 200 checks (`none` = the raised
`RuntimeError("Could not bracket lambda for equal-marginal")`), bisect for at
most `MAX_ITERS = 100` iterations, and emit one clamped delta per input pool
in input order. -/
noncomputable def equal_marginal (RW : List (String × ℝ × ℝ)) (P : ℝ) :
    Option (List (String × ℝ)) :=
  if activeOf RW = [] then some (RW.map fun t => (t.1, (0 : ℝ)))
  else
    match bracketHi (sumDelta (activeOf RW)) P 200 1 with
    | none => none
    | some hi =>
        some (RW.map (finalDelta (bisect (sumDelta (activeOf RW)) P 100 (1e-30) hi).1))

/-- Unfolding equation for `bracketHi` at a successor fuel value. -/
theorem bracketHi_succ (S : ℝ → ℝ) (P : ℝ) (n : ℕ) (hi : ℝ) :
    bracketHi S P (n + 1) hi =
      if S hi < P then some hi else bracketHi S P n (2 * hi) := rfl

/-- Unfolding equation for `bisect` at a successor fuel value. -/
theorem bisect_succ (S : ℝ → ℝ) (P : ℝ) (n : ℕ) (lo hi : ℝ) :
    bisect S P (n + 1) lo hi =
      if |S ((lo + hi) / 2) - P| < TOL then ((lo + hi) / 2, true)
      else if P < S ((lo + hi) / 2) then bisect S P n ((lo + hi) / 2) hi
      else bisect S P n lo ((lo + hi) / 2) := rfl

/-- Each summand of `sum_delta` is nonnegative. -/
theorem contrib_nonneg (lam : ℝ) (t : String × ℝ × ℝ) : 0 ≤ contrib lam t := by
  unfold contrib
  split
  · exact le_refl 0
  · split
    · linarith [le_of_lt (by assumption : 0 < Real.sqrt (t.2.1 * t.2.2 / lam) - t.2.2)]
    · exact le_refl 0

/-- `sum_delta` is a sum of nonnegative terms, hence nonnegative. -/
theorem sumDelta_nonneg (active : List (String × ℝ × ℝ)) (lam : ℝ) :
    0 ≤ sumDelta active lam := by
  unfold sumDelta
  apply List.sum_nonneg
  intro x hx
  rcases List.mem_map.1 hx with ⟨t, _, rfl⟩
  exact contrib_nonneg lam t

/-- The bracketing loop fails exactly when every checked candidate
`2^k * hi`, `k < n`, still satisfies `sum_delta ≥ P`. -/
theorem bracketHi_none_iff (S : ℝ → ℝ) (P : ℝ) :
    ∀ (n : ℕ) (hi : ℝ),
      bracketHi S P n hi = none ↔ ∀ k : ℕ, k < n → P ≤ S (2 ^ k * hi) := by
  intro n
  induction n with
  | zero => intro hi; simp [bracketHi]
  | succ n ih =>
    intro hi
    rw [bracketHi_succ]
    by_cases h : S hi < P
    · rw [if_pos h]
      apply iff_of_false (by simp)
      intro hall
      have h0 := hall 0 n.succ_pos
      rw [pow_zero, one_mul] at h0
      exact absurd h0 (not_le.2 h)
    · rw [if_neg h]
      rw [ih (2 * hi)]
      constructor
      · intro hall k hk
        cases k with
        | zero => simpa using not_lt.1 h
        | succ k =>
          have hk2 := hall k (by omega)
          have harg : 2 ^ k * (2 * hi) = 2 ^ (k + 1) * hi := by ring
          rwa [harg] at hk2
      · intro hall k hk
        have := hall (k + 1) (by omega)
        have harg : 2 ^ (k + 1) * hi = 2 ^ k * (2 * hi) := by ring
        rwa [harg] at this

/-- When the instrumented flag reports a tolerance break, the returned λ
satisfies the tolerance test. -/
theorem bisect_flag_true (S : ℝ → ℝ) (P : ℝ) :
    ∀ (n : ℕ) (lo hi : ℝ), (bisect S P n lo hi).2 = true →
      |S (bisect S P n lo hi).1 - P| < TOL := by
  intro n
  induction n with
  | zero => intro lo hi h; simp [bisect] at h
  | succ n ih =>
    intro lo hi h
    rw [bisect_succ] at h ⊢
    by_cases h1 : |S ((lo + hi) / 2) - P| < TOL
    · rw [if_pos h1]; rw [if_pos h1] at h; simpa using h1
    · rw [if_neg h1]; rw [if_neg h1] at h
      by_cases h2 : P < S ((lo + hi) / 2)
      · rw [if_pos h2]; rw [if_pos h2] at h; exact ih _ _ h
      · rw [if_neg h2]; rw [if_neg h2] at h; exact ih _ _ h

/-- When `sum_delta` stays strictly below `P - TOL` on the whole interval, the
bisection never fires the tolerance test, always moves `hi` down, and the
for-else fallback returns the untouched `lo`. -/
theorem bisect_all_below (S : ℝ → ℝ) (P : ℝ) :
    ∀ (n : ℕ) (lo hi : ℝ), lo ≤ hi →
      (∀ x, lo ≤ x → x ≤ hi → S x < P - TOL) →
      bisect S P n lo hi = (lo, false) := by
  intro n
  induction n with
  | zero => intro lo hi _ _; rfl
  | succ n ih =>
    intro lo hi hlh hbelow
    have hTOL : (0 : ℝ) < TOL := by unfold TOL; norm_num
    have hmid1 : lo ≤ (lo + hi) / 2 := by linarith
    have hmid2 : (lo + hi) / 2 ≤ hi := by linarith
    have hS := hbelow ((lo + hi) / 2) hmid1 hmid2
    rw [bisect_succ]
    rw [if_neg (by rw [abs_sub_lt_iff]; push_neg; intro h; linarith)]
    rw [if_neg (by linarith)]
    exact ih lo ((lo + hi) / 2) hmid1
      (fun x hx1 hx2 => hbelow x hx1 (le_trans hx2 hmid2))

/-- The final-loop output keeps each pool's identifier. -/
theorem finalDelta_fst (lam : ℝ) (t : String × ℝ × ℝ) :
    (finalDelta lam t).1 = t.1 := by
  unfold finalDelta
  split
  · rfl
  · split <;> rfl

/-- The final-loop delta is clamped below at zero. -/
theorem finalDelta_snd_nonneg (lam : ℝ) (t : String × ℝ × ℝ) :
    0 ≤ (finalDelta lam t).2 := by
  unfold finalDelta
  split
  · exact le_refl 0
  · split
    · linarith [le_of_lt (by assumption :
        0 < Real.sqrt (t.2.1 * t.2.2 / lam) - t.2.2)]
    · exact le_refl 0

/-- A pool with nonpositive revenue or negative weight gets delta zero in the
final loop. -/
theorem finalDelta_inactive (lam : ℝ) (t : String × ℝ × ℝ)
    (h : t.2.1 ≤ 0 ∨ t.2.2 < 0) : (finalDelta lam t).2 = 0 := by
  unfold finalDelta
  rw [if_pos h]

/-- For an active pool the final-loop delta agrees with its `sum_delta`
contribution (the `R*W <= 0` skip matches the `W = 0` clamped case). -/
theorem finalDelta_eq_contrib (lam : ℝ) (t : String × ℝ × ℝ)
    (hR : 0 < t.2.1) (hW : 0 ≤ t.2.2) :
    (finalDelta lam t).2 = contrib lam t := by
  unfold finalDelta contrib
  rw [if_neg (by push_neg; exact ⟨hR, hW⟩)]
  by_cases hnum : t.2.1 * t.2.2 ≤ 0
  · have hW0 : t.2.2 = 0 := by
      rcases lt_or_eq_of_le hW with hlt | heq
      · exact absurd (mul_pos hR hlt) (not_lt.2 hnum)
      · exact heq.symm
    rw [if_pos hnum, hW0]
    simp
  · rw [if_neg hnum]
    split <;> rfl

/-- Unfolding equation for `activeOf` at nil. -/
theorem activeOf_nil : activeOf [] = [] := rfl

/-- Unfolding equation for `activeOf` at a cons cell. -/
theorem activeOf_cons (t : String × ℝ × ℝ) (ts : List (String × ℝ × ℝ)) :
    activeOf (t :: ts) =
      if 0 < t.2.1 ∧ 0 ≤ t.2.2 then t :: activeOf ts else activeOf ts := rfl

/-- The sum of the final deltas over all input pools equals `sum_delta` of the
converged λ over the active set: the final loop and `sum_delta` agree on
active pools, and inactive pools contribute zero. -/
theorem sum_finalDelta (lam : ℝ) :
    ∀ RW : List (String × ℝ × ℝ),
      ((RW.map (finalDelta lam)).map Prod.snd).sum = sumDelta (activeOf RW) lam := by
  intro RW
  induction RW with
  | nil => simp [activeOf_nil, sumDelta]
  | cons t ts ih =>
    by_cases hact : 0 < t.2.1 ∧ 0 ≤ t.2.2
    · rw [activeOf_cons, if_pos hact]
      simp only [List.map_cons, List.sum_cons]
      rw [ih, finalDelta_eq_contrib lam t hact.1 hact.2]
      unfold sumDelta
      simp
    · have hinact : t.2.1 ≤ 0 ∨ t.2.2 < 0 := by
        push_neg at hact
        rcases lt_or_le 0 t.2.1 with hR | hR
        · exact Or.inr (hact hR)
        · exact Or.inl hR
      rw [activeOf_cons, if_neg hact]
      simp only [List.map_cons, List.sum_cons]
      rw [ih, finalDelta_inactive lam t hinact, zero_add]

/-- The shape of every successful `equal_marginal` result: either the
empty-active-set all-zero list, or the final-loop map at some λ. -/
theorem equal_marginal_some_shape (RW : List (String × ℝ × ℝ)) (P : ℝ)
    (out : List (String × ℝ)) (h : equal_marginal RW P = some out) :
    out = RW.map (fun t => (t.1, (0 : ℝ))) ∨ ∃ lam, out = RW.map (finalDelta lam) := by
  unfold equal_marginal at h
  by_cases hact : activeOf RW = []
  · rw [if_pos hact] at h
    exact Or.inl (Option.some_injective _ h).symm
  · rw [if_neg hact] at h
    rcases hbr : bracketHi (sumDelta (activeOf RW)) P 200 1 with _ | hi
    · rw [hbr] at h; cases h
    · rw [hbr] at h
      exact Or.inr ⟨_, (Option.some_injective _ h).symm⟩

/-- `equal_marginal` raises exactly when the active set is nonempty and every
bracket candidate `2^k` (`k < 200`) keeps `sum_delta` at or above `P`. -/
theorem equal_marginal_none_iff (RW : List (String × ℝ × ℝ)) (P : ℝ) :
    equal_marginal RW P = none ↔
      activeOf RW ≠ [] ∧
        ∀ k : ℕ, k < 200 → P ≤ sumDelta (activeOf RW) (2 ^ k) := by
  unfold equal_marginal
  by_cases hact : activeOf RW = []
  · rw [if_pos hact]
    simp [hact]
  · rw [if_neg hact]
    rcases hbr : bracketHi (sumDelta (activeOf RW)) P 200 1 with _ | hi
    · have h2 := (bracketHi_none_iff (sumDelta (activeOf RW)) P 200 1).1 hbr
      simp only [mul_one] at h2
      constructor
      · intro _; exact ⟨hact, h2⟩
      · intro _; rfl
    · have h2 : ¬ bracketHi (sumDelta (activeOf RW)) P 200 1 = none := by
        rw [hbr]; simp
      rw [bracketHi_none_iff] at h2
      push_neg at h2
      rcases h2 with ⟨k, hk, hlt⟩
      simp only [mul_one] at hlt
      constructor
      · intro hfalse; exact absurd hfalse (by simp)
      · rintro ⟨-, hall⟩
        exact absurd (hall k hk) (not_le.2 hlt)

/-- Every entry of a successful result whose input pool is inactive
(`R ≤ 0` or `W < 0`) is zero. -/
theorem equal_marginal_entry_zero (RW : List (String × ℝ × ℝ)) (P : ℝ)
    (out : List (String × ℝ)) (h : equal_marginal RW P = some out)
    (i : ℕ) (h1 : i < out.length) (h2 : i < RW.length)
    (hinact : (RW.get ⟨i, h2⟩).2.1 ≤ 0 ∨ (RW.get ⟨i, h2⟩).2.2 < 0) :
    (out.get ⟨i, h1⟩).2 = 0 := by
  rcases equal_marginal_some_shape RW P out h with hsh | ⟨lam, hsh⟩
  · subst hsh; simp
  · subst hsh
    simp only [List.get_eq_getElem, List.getElem_map]
    exact finalDelta_inactive lam _ hinact

/-- Every entry of a successful result is nonnegative. -/
theorem equal_marginal_entry_nonneg (RW : List (String × ℝ × ℝ)) (P : ℝ)
    (out : List (String × ℝ)) (h : equal_marginal RW P = some out)
    (i : ℕ) (h1 : i < out.length) : 0 ≤ (out.get ⟨i, h1⟩).2 := by
  rcases equal_marginal_some_shape RW P out h with hsh | ⟨lam, hsh⟩
  · subst hsh; simp
  · subst hsh
    simp only [List.get_eq_getElem, List.getElem_map]
    exact finalDelta_snd_nonneg lam _

/-- A successful result has one entry per input pool. -/
theorem equal_marginal_length (RW : List (String × ℝ × ℝ)) (P : ℝ)
    (out : List (String × ℝ)) (h : equal_marginal RW P = some out) :
    out.length = RW.length := by
  rcases equal_marginal_some_shape RW P out h with hsh | ⟨lam, hsh⟩ <;>
    (subst hsh; simp)

/-- A successful result keeps the pool identifiers in input order. -/
theorem equal_marginal_fst (RW : List (String × ℝ × ℝ)) (P : ℝ)
    (out : List (String × ℝ)) (h : equal_marginal RW P = some out)
    (i : ℕ) (h1 : i < out.length) (h2 : i < RW.length) :
    (out.get ⟨i, h1⟩).1 = (RW.get ⟨i, h2⟩).1 := by
  rcases equal_marginal_some_shape RW P out h with hsh | ⟨lam, hsh⟩
  · subst hsh; simp
  · subst hsh
    simp only [List.get_eq_getElem, List.getElem_map]
    exact finalDelta_fst lam _

/-- CLAIM C3 (confirmed). The solver raises its fatal bracketing failure
(`RuntimeError("Could not bracket lambda...")`, modelled as `none`, so no
clamped allocation is returned) exactly when the active set is nonempty and
none of the bracket candidates `hi = 2^k` (`hi` starts at `1` and is doubled
after each of the 200 failed checks, so the checked values are `2^k` for
`k < 200`) satisfies `S(hi) < P`. -/
theorem c3_bracketing_failure_iff (RW : List (String × ℝ × ℝ)) (P : ℝ) :
    equal_marginal RW P = none ↔
      activeOf RW ≠ [] ∧
        ∀ k : ℕ, k < 200 → P ≤ sumDelta (activeOf RW) (2 ^ k) :=
  equal_marginal_none_iff RW P

/-- Witness for C3: one active pool with budget `-1`; every candidate keeps
`S(hi) ≥ 0 > -1`, so the solver raises. -/
theorem c3_bracketing_failure_iff_witness :
    equal_marginal [(("c" : String), (1 : ℝ), (2 : ℝ))] (-1) = none := by
  rw [c3_bracketing_failure_iff]
  constructor
  · rw [activeOf_cons, if_pos (by norm_num), activeOf_nil]
    simp
  · intro k _
    exact le_trans (by norm_num) (sumDelta_nonneg _ _)

/-- AMENDED CLAIM C2. With budget `P = 0` the solver returns the all-zero
allocation only when the active set is empty; when at least one pool is
active, the bracket check `S(hi) < 0` can never succeed (`S(hi) ≥ 0`), so the
solver raises the bracketing error instead of returning zeros. -/
theorem c2_zero_budget_behavior (RW : List (String × ℝ × ℝ)) :
    (activeOf RW = [] →
      equal_marginal RW 0 = some (RW.map fun t => (t.1, (0 : ℝ)))) ∧
    (activeOf RW ≠ [] → equal_marginal RW 0 = none) := by
  constructor
  · intro hact
    unfold equal_marginal
    rw [if_pos hact]
  · intro hact
    rw [equal_marginal_none_iff]
    exact ⟨hact, fun k _ => sumDelta_nonneg _ _⟩

/-- Witness for the amended C2: a single inactive pool (negative revenue)
with `P = 0` yields the all-zero allocation without an error. -/
theorem c2_zero_budget_behavior_witness :
    equal_marginal [(("z" : String), (-1 : ℝ), (1 : ℝ))] 0 = some [("z", 0)] := by
  have hact : activeOf [(("z" : String), (-1 : ℝ), (1 : ℝ))] = [] := by
    rw [activeOf_cons, if_neg (by norm_num), activeOf_nil]
  have h := (c2_zero_budget_behavior [(("z" : String), (-1 : ℝ), (1 : ℝ))]).1 hact
  simpa using h

/-- COUNTEREXAMPLE to C2 as stated: with one active pool `(R, W) = (1, 1)`
and budget `P = 0`, the solver raises the bracketing error (returns `none`)
rather than producing the all-zero allocation: `ZeroBudget` IS an error
condition whenever the active set is nonempty. -/
theorem c2_counterexample :
    equal_marginal [(("a" : String), (1 : ℝ), (1 : ℝ))] 0 = none ∧
      equal_marginal [(("a" : String), (1 : ℝ), (1 : ℝ))] 0 ≠ some [("a", 0)] := by
  have h : equal_marginal [(("a" : String), (1 : ℝ), (1 : ℝ))] 0 = none := by
    rw [equal_marginal_none_iff]
    constructor
    · rw [activeOf_cons, if_pos (by norm_num), activeOf_nil]
      simp
    · intro k _
      exact sumDelta_nonneg _ _
  exact ⟨h, by rw [h]; simp⟩

/-- CLAIM C7 (confirmed). Every delta returned by a successful solver call is
nonnegative, and any pool with `R ≤ 0` or `W < 0` receives exactly `0` (it is
excluded from the active set without the whole call being rejected). -/
theorem c7_nonneg_and_inactive_excluded (RW : List (String × ℝ × ℝ)) (P : ℝ)
    (out : List (String × ℝ)) (hok : equal_marginal RW P = some out)
    (i : ℕ) (h1 : i < out.length) (h2 : i < RW.length) :
    0 ≤ (out.get ⟨i, h1⟩).2 ∧
      ((RW.get ⟨i, h2⟩).2.1 ≤ 0 ∨ (RW.get ⟨i, h2⟩).2.2 < 0 →
        (out.get ⟨i, h1⟩).2 = 0) :=
  ⟨equal_marginal_entry_nonneg RW P out hok i h1,
   fun hin => equal_marginal_entry_zero RW P out hok i h1 h2 hin⟩

/-- Witness for C7: the call succeeds on a list with a negative-revenue pool,
that pool's delta is `0 ≥ 0`, and the negativity premise is dischargeable. -/
theorem c7_witness :
    0 ≤ ((([(("a" : String), (0 : ℝ)), ("b", 0)] : List (String × ℝ))).get
          ⟨0, by simp⟩).2 ∧
      ((([(("a" : String), (-2 : ℝ), (3 : ℝ)), ("b", 0, 1)] :
          List (String × ℝ × ℝ)).get ⟨0, by simp⟩).2.1 ≤ 0 ∨
        (([(("a" : String), (-2 : ℝ), (3 : ℝ)), ("b", 0, 1)] :
          List (String × ℝ × ℝ)).get ⟨0, by simp⟩).2.2 < 0 →
        ((([(("a" : String), (0 : ℝ)), ("b", 0)] : List (String × ℝ))).get
          ⟨0, by simp⟩).2 = 0) := by
  have hact : activeOf [(("a" : String), (-2 : ℝ), (3 : ℝ)), ("b", 0, 1)] = [] := by
    rw [activeOf_cons, if_neg (by norm_num), activeOf_cons,
      if_neg (by norm_num), activeOf_nil]
  have hok : equal_marginal [(("a" : String), (-2 : ℝ), (3 : ℝ)), ("b", 0, 1)] 7 =
      some [("a", 0), ("b", 0)] := by
    unfold equal_marginal
    rw [if_pos hact]
    simp
  exact c7_nonneg_and_inactive_excluded _ 7 _ hok 0 (by simp) (by simp)

/-- CLAIM C10 (confirmed). A successful solver call returns exactly one
`(pool, delta)` pair per input triple, with identifiers in input order — the
alignment that lets callers zip aggressive and safe allocations by index. -/
theorem c10_one_output_per_input (RW : List (String × ℝ × ℝ)) (P : ℝ)
    (out : List (String × ℝ)) (hok : equal_marginal RW P = some out) :
    out.length = RW.length ∧
      ∀ (i : ℕ) (h1 : i < out.length) (h2 : i < RW.length),
        (out.get ⟨i, h1⟩).1 = (RW.get ⟨i, h2⟩).1 :=
  ⟨equal_marginal_length RW P out hok,
   fun i h1 h2 => equal_marginal_fst RW P out hok i h1 h2⟩

/-- Witness for C10: a two-pool call returns two entries with the input
identifiers in input order. -/
theorem c10_witness :
    (([(("x" : String), (0 : ℝ)), ("y", 0)] : List (String × ℝ)).length =
      ([(("x" : String), (0 : ℝ), (0 : ℝ)), ("y", -1, 2)] :
        List (String × ℝ × ℝ)).length) ∧
      ∀ (i : ℕ) (h1 : i < ([(("x" : String), (0 : ℝ)), ("y", 0)] :
            List (String × ℝ)).length)
        (h2 : i < ([(("x" : String), (0 : ℝ), (0 : ℝ)), ("y", -1, 2)] :
            List (String × ℝ × ℝ)).length),
        (([(("x" : String), (0 : ℝ)), ("y", 0)] : List (String × ℝ)).get
            ⟨i, h1⟩).1 =
          (([(("x" : String), (0 : ℝ), (0 : ℝ)), ("y", -1, 2)] :
            List (String × ℝ × ℝ)).get ⟨i, h2⟩).1 := by
  have hact : activeOf [(("x" : String), (0 : ℝ), (0 : ℝ)), ("y", -1, 2)] = [] := by
    rw [activeOf_cons, if_neg (by norm_num), activeOf_cons,
      if_neg (by norm_num), activeOf_nil]
  have hok : equal_marginal [(("x" : String), (0 : ℝ), (0 : ℝ)), ("y", -1, 2)] 3 =
      some [("x", 0), ("y", 0)] := by
    unfold equal_marginal
    rw [if_pos hact]
    simp
  exact c10_one_output_per_input _ 3 _ hok

/-- The bracket loop succeeds at its very first check when `S(1) < P`. -/
theorem bracketHi_first (S : ℝ → ℝ) (P : ℝ) (h : S 1 < P) :
    bracketHi S P 200 1 = some 1 := by
  rw [show (200 : ℕ) = 199 + 1 from rfl, bracketHi_succ, if_pos h]

/-- The bracket loop succeeds at its second check when `S(1) ≥ P` and
`S(2) < P`. -/
theorem bracketHi_second (S : ℝ → ℝ) (P : ℝ) (h1 : ¬ S 1 < P) (h2 : S 2 < P) :
    bracketHi S P 200 1 = some 2 := by
  rw [show (200 : ℕ) = 199 + 1 from rfl, bracketHi_succ, if_neg h1, mul_one,
    show (199 : ℕ) = 198 + 1 from rfl, bracketHi_succ, if_pos h2]

/-- The bisection stops at its very first midpoint when the tolerance test
fires there. -/
theorem bisect_first_mid (S : ℝ → ℝ) (P lo hi : ℝ)
    (h : |S ((lo + hi) / 2) - P| < TOL) :
    bisect S P 100 lo hi = ((lo + hi) / 2, true) := by
  rw [show (100 : ℕ) = 99 + 1 from rfl, bisect_succ, if_pos h]

/-- Evaluation scheme for a successful solver run with nonempty active set. -/
theorem equal_marginal_eval (RW : List (String × ℝ × ℝ)) (P : ℝ) (hi : ℝ)
    (hne : activeOf RW ≠ [])
    (hbr : bracketHi (sumDelta (activeOf RW)) P 200 1 = some hi) :
    equal_marginal RW P =
      some (RW.map
        (finalDelta (bisect (sumDelta (activeOf RW)) P 100 (1e-30) hi).1)) := by
  unfold equal_marginal
  rw [if_neg hne, hbr]

/-- COUNTEREXAMPLE to C1 as stated: one active pool `(R, W) = (1, 1)` with
`R·W > 0` and budget `P = 10^20 > 0`.  The root of `S(λ) = P` lies below the
hard-coded lower bracket `lo = 1e-30` (it would need `λ ≈ 1e-40`), the
tolerance test never fires, the for-else fallback returns `λ = lo = 1e-30`,
and the returned allocation sums to `10^15 - 1`, nowhere near `P` — the
relative error is about `1`, far beyond `1e-9`. -/
theorem c1_counterexample :
    equal_marginal [(("p" : String), (1 : ℝ), (1 : ℝ))] ((10 : ℝ) ^ 20) =
      some [("p", (10 : ℝ) ^ 15 - 1)] ∧
    ¬ |((([("p", (10 : ℝ) ^ 15 - 1)] : List (String × ℝ)).map Prod.snd).sum -
          (10 : ℝ) ^ 20)| ≤ 1 / 10 ^ 9 * (10 : ℝ) ^ 20 := by
  have hact : activeOf [(("p" : String), (1 : ℝ), (1 : ℝ))] =
      [(("p" : String), (1 : ℝ), (1 : ℝ))] := by
    rw [activeOf_cons, if_pos (by norm_num), activeOf_nil]
  have hS : ∀ lam : ℝ,
      sumDelta [(("p" : String), (1 : ℝ), (1 : ℝ))] lam =
        contrib lam (("p" : String), (1 : ℝ), (1 : ℝ)) := by
    intro lam; simp [sumDelta]
  have hS1 : sumDelta [(("p" : String), (1 : ℝ), (1 : ℝ))] 1 < (10 : ℝ) ^ 20 := by
    rw [hS]
    unfold contrib
    rw [if_neg (by norm_num), show ((1 : ℝ) * 1 / 1) = 1 by norm_num,
      Real.sqrt_one, if_neg (by norm_num)]
    norm_num
  have hbr : bracketHi
      (sumDelta (activeOf [(("p" : String), (1 : ℝ), (1 : ℝ))]))
      ((10 : ℝ) ^ 20) 200 1 = some 1 := by
    rw [hact]
    exact bracketHi_first _ _ hS1
  have hbelow : ∀ x : ℝ, (1e-30 : ℝ) ≤ x → x ≤ (1 : ℝ) →
      sumDelta [(("p" : String), (1 : ℝ), (1 : ℝ))] x < (10 : ℝ) ^ 20 - TOL := by
    intro x hx1 _
    have hx0 : (0 : ℝ) < x := lt_of_lt_of_le (by norm_num) hx1
    have hTOL : TOL = (1e-12 : ℝ) := rfl
    rw [hS]
    unfold contrib
    rw [if_neg (by norm_num)]
    have hsq : Real.sqrt ((1 : ℝ) * 1 / x) ≤ (10 : ℝ) ^ 15 := by
      rw [Real.sqrt_le_iff]
      refine ⟨by positivity, ?_⟩
      rw [one_mul, div_le_iff₀ hx0]
      have h30 : (10 : ℝ) ^ 30 * (1e-30 : ℝ) ≤ (10 : ℝ) ^ 30 * x :=
        mul_le_mul_of_nonneg_left hx1 (by positivity)
      have h31 : (10 : ℝ) ^ 30 * (1e-30 : ℝ) = 1 := by norm_num
      have hpow : ((10 : ℝ) ^ 15) ^ 2 = (10 : ℝ) ^ 30 := by norm_num
      rw [hpow]
      linarith
    have hnum : (10 : ℝ) ^ 15 - 1 < (10 : ℝ) ^ 20 - (1e-12 : ℝ) := by norm_num
    rw [hTOL]
    split
    · linarith
    · norm_num
  have hbi : bisect (sumDelta (activeOf [(("p" : String), (1 : ℝ), (1 : ℝ))]))
      ((10 : ℝ) ^ 20) 100 (1e-30) 1 = ((1e-30 : ℝ), false) := by
    rw [hact]
    exact bisect_all_below _ _ 100 _ _ (by norm_num) hbelow
  have hfd : finalDelta (1e-30) (("p" : String), (1 : ℝ), (1 : ℝ)) =
      ("p", (10 : ℝ) ^ 15 - 1) := by
    unfold finalDelta
    rw [if_neg (by norm_num),
      show ((1 : ℝ) * 1 / (1e-30 : ℝ)) = ((10 : ℝ) ^ 15) ^ 2 by norm_num,
      Real.sqrt_sq (by positivity), if_pos (by norm_num)]
  constructor
  · rw [equal_marginal_eval _ _ 1 (by rw [hact]; simp) hbr, hbi]
    show some (List.map (finalDelta (1e-30))
        [(("p" : String), (1 : ℝ), (1 : ℝ))]) = _
    rw [List.map_cons, List.map_nil, hfd]
  · rw [List.map_cons, List.map_nil, List.sum_cons, List.sum_nil, add_zero,
      abs_of_nonpos (by norm_num)]
    norm_num

/-- AMENDED CLAIM C1. Whenever the bisection loop exits through its tolerance
test (instrumented flag `true`), the returned allocation sums to `S(λ)` with
`|S(λ) - P| < TOL = 1e-12`, hence within `1e-9` relative tolerance of `P`
for every budget `P ≥ 1e-3`.  (The unconditional claim is false: see the
counterexample, where the fallback path returns a sum far from `P`.) -/
theorem c1_sum_tolerance (RW : List (String × ℝ × ℝ)) (P hi : ℝ)
    (hne : activeOf RW ≠ [])
    (hbr : bracketHi (sumDelta (activeOf RW)) P 200 1 = some hi)
    (htol : (bisect (sumDelta (activeOf RW)) P 100 (1e-30) hi).2 = true)
    (hP : (1 : ℝ) / 10 ^ 3 ≤ P) :
    ∃ out, equal_marginal RW P = some out ∧
      |(out.map Prod.snd).sum - P| ≤ 1 / 10 ^ 9 * P := by
  refine ⟨_, equal_marginal_eval RW P hi hne hbr, ?_⟩
  rw [sum_finalDelta]
  have h1 := bisect_flag_true (sumDelta (activeOf RW)) P 100 (1e-30) hi htol
  have hfac : TOL ≤ 1 / 10 ^ 9 * P := by
    have hTOL : TOL = (1e-12 : ℝ) := rfl
    rw [hTOL]
    nlinarith [hP]
  linarith

/-- Witness for the amended C1: a single pool engineered so the very first
bisection midpoint satisfies `S(mid) = P = 1` exactly, so the tolerance test
fires and the sum matches the budget. -/
theorem c1_sum_tolerance_witness :
    ∃ out,
      equal_marginal [(("q" : String), (2 + 2 / 10 ^ 30 : ℝ), (1 : ℝ))] 1 =
        some out ∧
      |(out.map Prod.snd).sum - 1| ≤ 1 / 10 ^ 9 * 1 := by
  have hact : activeOf [(("q" : String), (2 + 2 / 10 ^ 30 : ℝ), (1 : ℝ))] =
      [(("q" : String), (2 + 2 / 10 ^ 30 : ℝ), (1 : ℝ))] := by
    rw [activeOf_cons, if_pos (by norm_num), activeOf_nil]
  have hS : ∀ lam : ℝ,
      sumDelta [(("q" : String), (2 + 2 / 10 ^ 30 : ℝ), (1 : ℝ))] lam =
        contrib lam (("q" : String), (2 + 2 / 10 ^ 30 : ℝ), (1 : ℝ)) := by
    intro lam; simp [sumDelta]
  have hS1 : sumDelta [(("q" : String), (2 + 2 / 10 ^ 30 : ℝ), (1 : ℝ))] 1 < 1 := by
    rw [hS]
    unfold contrib
    rw [if_neg (by norm_num)]
    have hlt : Real.sqrt ((2 + 2 / 10 ^ 30 : ℝ) * 1 / 1) < 2 := by
      rw [Real.sqrt_lt' (by norm_num)]
      norm_num
    split
    · linarith
    · norm_num
  have hbr : bracketHi
      (sumDelta (activeOf [(("q" : String), (2 + 2 / 10 ^ 30 : ℝ), (1 : ℝ))]))
      1 200 1 = some 1 := by
    rw [hact]
    exact bracketHi_first _ _ hS1
  have hmid : |sumDelta [(("q" : String), (2 + 2 / 10 ^ 30 : ℝ), (1 : ℝ))]
      (((1e-30 : ℝ) + 1) / 2) - 1| < TOL := by
    rw [hS]
    unfold contrib
    rw [if_neg (by norm_num),
      show ((2 + 2 / 10 ^ 30 : ℝ) * 1 / (((1e-30 : ℝ) + 1) / 2)) = (2 : ℝ) ^ 2 by
        norm_num,
      Real.sqrt_sq (by norm_num : (0 : ℝ) ≤ 2), if_pos (by norm_num),
      show ((2 : ℝ) - 1 - 1) = 0 by norm_num, abs_zero]
    unfold TOL
    norm_num
  have htol : (bisect
      (sumDelta (activeOf [(("q" : String), (2 + 2 / 10 ^ 30 : ℝ), (1 : ℝ))]))
      1 100 (1e-30) 1).2 = true := by
    rw [hact, bisect_first_mid _ _ _ _ hmid]
  exact c1_sum_tolerance _ 1 1 (by rw [hact]; simp) hbr htol (by norm_num)

/-- Concrete revenue for the first run of the C6 counterexample: chosen so
that the first bisection midpoint `(1e-30 + 1)/2` solves `S(λ) = P` exactly
for `P = 10^20` and `W = 1`. -/
noncomputable def aLow : ℝ := ((1e-30 + 1) / 2) * (1 + 10 ^ 20) ^ 2

/-- Concrete revenue for the second run of the C6 counterexample: larger than
`aLow`, but it flips the first bracket check (`S(1) ≥ P`), which doubles `hi`
to `2` and moves the first bisection midpoint to `(1e-30 + 2)/2`, where the
tolerance test fires at `S = P - 1e-13`. -/
noncomputable def aHigh : ℝ := ((1e-30 + 2) / 2) * (1 + 10 ^ 20 - 1 / 10 ^ 13) ^ 2

/-- COUNTEREXAMPLE to C6 as stated: a single pool with `W = 1` and budget
`P = 10^20`.  Raising the revenue from `aLow` to `aHigh > aLow` DECREASES the
returned delta from `10^20` to `10^20 - 1e-13`, because the larger revenue
flips the first bracket check, which changes the bisection grid and the λ at
which the tolerance test fires. -/
theorem c6_counterexample :
    aLow < aHigh ∧
    equal_marginal [(("m" : String), aLow, (1 : ℝ))] ((10 : ℝ) ^ 20) =
      some [("m", (10 : ℝ) ^ 20)] ∧
    equal_marginal [(("m" : String), aHigh, (1 : ℝ))] ((10 : ℝ) ^ 20) =
      some [("m", (10 : ℝ) ^ 20 - 1 / 10 ^ 13)] ∧
    (10 : ℝ) ^ 20 - 1 / 10 ^ 13 < (10 : ℝ) ^ 20 := by
  have haLpos : (0 : ℝ) < aLow := by unfold aLow; positivity
  have haHpos : (0 : ℝ) < aHigh := by
    unfold aHigh
    have h1 : (0 : ℝ) < (1e-30 + 2) / 2 := by norm_num
    have h2 : (0 : ℝ) < (1 + 10 ^ 20 - 1 / 10 ^ 13 : ℝ) ^ 2 := by positivity
    exact mul_pos h1 h2
  refine ⟨by unfold aLow aHigh; norm_num, ?_, ?_, by norm_num⟩
  · -- first run: bracket at hi = 1, tolerance break at mid = (1e-30 + 1)/2
    have hact : activeOf [(("m" : String), aLow, (1 : ℝ))] =
        [(("m" : String), aLow, (1 : ℝ))] := by
      rw [activeOf_cons, if_pos (by exact ⟨haLpos, by norm_num⟩), activeOf_nil]
    have hS : ∀ lam : ℝ,
        sumDelta [(("m" : String), aLow, (1 : ℝ))] lam =
          contrib lam (("m" : String), aLow, (1 : ℝ)) := by
      intro lam; simp [sumDelta]
    have hS1 : sumDelta [(("m" : String), aLow, (1 : ℝ))] 1 < (10 : ℝ) ^ 20 := by
      rw [hS]
      unfold contrib
      rw [if_neg (by push_neg; show (0 : ℝ) < aLow * 1; rw [mul_one]; exact haLpos)]
      have hlt : Real.sqrt (aLow * 1 / 1) < 1 + 10 ^ 20 := by
        rw [Real.sqrt_lt' (by norm_num)]
        unfold aLow
        norm_num
      split
      · linarith
      · norm_num
    have hbr : bracketHi
        (sumDelta (activeOf [(("m" : String), aLow, (1 : ℝ))]))
        ((10 : ℝ) ^ 20) 200 1 = some 1 := by
      rw [hact]
      exact bracketHi_first _ _ hS1
    have harg : aLow * 1 / (((1e-30 : ℝ) + 1) / 2) = ((1 : ℝ) + 10 ^ 20) ^ 2 := by
      unfold aLow
      norm_num
    have hmid : |sumDelta [(("m" : String), aLow, (1 : ℝ))]
        (((1e-30 : ℝ) + 1) / 2) - (10 : ℝ) ^ 20| < TOL := by
      rw [hS]
      unfold contrib
      rw [if_neg (by push_neg; show (0 : ℝ) < aLow * 1; rw [mul_one]; exact haLpos),
        harg, Real.sqrt_sq (by norm_num : (0 : ℝ) ≤ 1 + 10 ^ 20),
        if_pos (by norm_num),
        show ((1 : ℝ) + 10 ^ 20 - 1 - 10 ^ 20) = 0 by norm_num, abs_zero]
      unfold TOL
      norm_num
    have hfd : finalDelta (((1e-30 : ℝ) + 1) / 2) (("m" : String), aLow, (1 : ℝ)) =
        ("m", (10 : ℝ) ^ 20) := by
      unfold finalDelta
      rw [if_neg (by push_neg; exact ⟨haLpos, by norm_num⟩), harg,
        Real.sqrt_sq (by norm_num : (0 : ℝ) ≤ 1 + 10 ^ 20),
        if_pos (by norm_num)]
      norm_num
    rw [equal_marginal_eval _ _ 1 (by rw [hact]; simp) hbr, hact,
      bisect_first_mid _ _ _ _ hmid]
    show some (List.map (finalDelta (((1e-30 : ℝ) + 1) / 2))
        [(("m" : String), aLow, (1 : ℝ))]) = _
    rw [List.map_cons, List.map_nil, hfd]
  · -- second run: bracket flips to hi = 2, tolerance break at (1e-30 + 2)/2
    have hact : activeOf [(("m" : String), aHigh, (1 : ℝ))] =
        [(("m" : String), aHigh, (1 : ℝ))] := by
      rw [activeOf_cons, if_pos (by exact ⟨haHpos, by norm_num⟩), activeOf_nil]
    have hS : ∀ lam : ℝ,
        sumDelta [(("m" : String), aHigh, (1 : ℝ))] lam =
          contrib lam (("m" : String), aHigh, (1 : ℝ)) := by
      intro lam; simp [sumDelta]
    have hS1 : ¬ sumDelta [(("m" : String), aHigh, (1 : ℝ))] 1 < (10 : ℝ) ^ 20 := by
      rw [hS]
      unfold contrib
      rw [if_neg (by push_neg; show (0 : ℝ) < aHigh * 1; rw [mul_one]; exact haHpos)]
      have hge : (1 : ℝ) + 10 ^ 20 ≤ Real.sqrt (aHigh * 1 / 1) := by
        rw [Real.le_sqrt' (by norm_num)]
        unfold aHigh
        norm_num
      rw [if_pos (by linarith)]
      linarith
    have hS2 : sumDelta [(("m" : String), aHigh, (1 : ℝ))] 2 < (10 : ℝ) ^ 20 := by
      rw [hS]
      unfold contrib
      rw [if_neg (by push_neg; show (0 : ℝ) < aHigh * 1; rw [mul_one]; exact haHpos)]
      have hlt : Real.sqrt (aHigh * 1 / 2) < 1 + 10 ^ 20 := by
        rw [Real.sqrt_lt' (by norm_num)]
        unfold aHigh
        norm_num
      split
      · linarith
      · norm_num
    have hbr : bracketHi
        (sumDelta (activeOf [(("m" : String), aHigh, (1 : ℝ))]))
        ((10 : ℝ) ^ 20) 200 1 = some 2 := by
      rw [hact]
      exact bracketHi_second _ _ hS1 hS2
    have harg : aHigh * 1 / (((1e-30 : ℝ) + 2) / 2) =
        ((1 : ℝ) + 10 ^ 20 - 1 / 10 ^ 13) ^ 2 := by
      unfold aHigh
      norm_num
    have hmid : |sumDelta [(("m" : String), aHigh, (1 : ℝ))]
        (((1e-30 : ℝ) + 2) / 2) - (10 : ℝ) ^ 20| < TOL := by
      rw [hS]
      unfold contrib
      rw [if_neg (by push_neg; show (0 : ℝ) < aHigh * 1; rw [mul_one]; exact haHpos),
        harg, Real.sqrt_sq (by norm_num : (0 : ℝ) ≤ 1 + 10 ^ 20 - 1 / 10 ^ 13),
        if_pos (by norm_num),
        show ((1 : ℝ) + 10 ^ 20 - 1 / 10 ^ 13 - 1 - 10 ^ 20) = -(1 / 10 ^ 13) by
          norm_num,
        abs_neg, abs_of_pos (by norm_num)]
      unfold TOL
      norm_num
    have hfd : finalDelta (((1e-30 : ℝ) + 2) / 2)
        (("m" : String), aHigh, (1 : ℝ)) =
        ("m", (10 : ℝ) ^ 20 - 1 / 10 ^ 13) := by
      unfold finalDelta
      rw [if_neg (by push_neg; exact ⟨haHpos, by norm_num⟩), harg,
        Real.sqrt_sq (by norm_num : (0 : ℝ) ≤ 1 + 10 ^ 20 - 1 / 10 ^ 13),
        if_pos (by norm_num)]
      norm_num
    rw [equal_marginal_eval _ _ 2 (by rw [hact]; simp) hbr, hact,
      bisect_first_mid _ _ _ _ hmid]
    show some (List.map (finalDelta (((1e-30 : ℝ) + 2) / 2))
        [(("m" : String), aHigh, (1 : ℝ))]) = _
    rw [List.map_cons, List.map_nil, hfd]

/-- AMENDED CLAIM C6. Monotonicity in `R` does hold for the final-allocation
map at any FIXED multiplier `λ > 0`: increasing a pool's revenue never
decreases the delta computed from the closed form at that λ.  Across two full
solver runs the discretized root search can return a different λ, and the
returned delta can then decrease (see the counterexample). -/
theorem c6_monotone_in_R_at_fixed_lambda (s : String) (lam R R2 W : ℝ)
    (hlam : 0 < lam) (hW : 0 ≤ W) (hR : R ≤ R2) :
    (finalDelta lam (s, R, W)).2 ≤ (finalDelta lam (s, R2, W)).2 := by
  by_cases hR2 : R2 ≤ 0
  · rw [finalDelta_inactive lam (s, R, W) (Or.inl (le_trans hR hR2)),
      finalDelta_inactive lam (s, R2, W) (Or.inl hR2)]
  · push_neg at hR2
    by_cases hR1 : R ≤ 0
    · rw [finalDelta_inactive lam (s, R, W) (Or.inl hR1)]
      exact finalDelta_snd_nonneg lam (s, R2, W)
    · push_neg at hR1
      unfold finalDelta
      show (if R ≤ 0 ∨ W < 0 then (s, (0 : ℝ))
          else if 0 < Real.sqrt (R * W / lam) - W
               then (s, Real.sqrt (R * W / lam) - W) else (s, 0)).2 ≤
        (if R2 ≤ 0 ∨ W < 0 then (s, (0 : ℝ))
          else if 0 < Real.sqrt (R2 * W / lam) - W
               then (s, Real.sqrt (R2 * W / lam) - W) else (s, 0)).2
      have hn1 : ¬(R ≤ 0 ∨ W < 0) := by push_neg; exact ⟨hR1, hW⟩
      have hn2 : ¬(R2 ≤ 0 ∨ W < 0) := by push_neg; exact ⟨hR2, hW⟩
      rw [if_neg hn1, if_neg hn2]
      have hsub : R * W / lam ≤ R2 * W / lam :=
        div_le_div_of_nonneg_right (mul_le_mul_of_nonneg_right hR hW) hlam.le
      have hd : Real.sqrt (R * W / lam) - W ≤ Real.sqrt (R2 * W / lam) - W :=
        sub_le_sub_right (Real.sqrt_le_sqrt hsub) W
      rcases lt_or_le 0 (Real.sqrt (R * W / lam) - W) with h1 | h1
      · rw [if_pos h1, if_pos (lt_of_lt_of_le h1 hd)]
        exact hd
      · rw [if_neg (not_lt.2 h1)]
        rcases lt_or_le 0 (Real.sqrt (R2 * W / lam) - W) with h2 | h2
        · rw [if_pos h2]
          exact le_of_lt h2
        · rw [if_neg (not_lt.2 h2)]

/-- Witness for the amended C6: at fixed `λ = 1`, `W = 1`, raising revenue
from `1` to `4` does not decrease the delta. -/
theorem c6_monotone_witness :
    (finalDelta 1 (("w" : String), (1 : ℝ), (1 : ℝ))).2 ≤
      (finalDelta 1 (("w" : String), (4 : ℝ), (1 : ℝ))).2 :=
  c6_monotone_in_R_at_fixed_lambda "w" 1 1 4 1 (by norm_num) (by norm_num)
    (by norm_num)

/-- `compute_safe_allocation(pools, P)`
(`scripts/algo/advanced_optimizer_with_avoidance.py` lines 151-166, identical
in `advanced_optimizer_variable.py` lines 101-118): if the total weight is
`≤ 0` return zeros, otherwise give each pool with `W > 0` the share
`P * W / ΣW` and every other pool `0`. -/
noncomputable def compute_safe_allocation (pools : List (String × ℝ × ℝ))
    (P : ℝ) : List (String × ℝ) :=
  if (pools.map fun p => p.2.2).sum ≤ 0 then pools.map fun p => (p.1, 0)
  else pools.map fun p =>
    (p.1, if 0 < p.2.2 then P * p.2.2 / (pools.map fun q => q.2.2).sum else 0)

/-- The blend of `scripts/algo/advanced_optimizer_variable.py` line 148:
`Δ_comb = (1 - θ) * Δ_agg + θ * Δ_safe`, zipping the two allocations and
keeping the aggressive side's pool address. -/
noncomputable def blend_variable (θ : ℝ) (agg safe : List (String × ℝ)) :
    List (String × ℝ) :=
  List.zipWith (fun a s => (a.1, (1 - θ) * a.2 + θ * s.2)) agg safe

/-- The blend of `scripts/algo/advanced_optimizer_with_avoidance.py`
line 217: `Δ_comb = θ * Δ_safe + (1 - θ) * Δ_agg` with
`θ = RISK_AVERSION / 100`. -/
noncomputable def blend_avoidance (θ : ℝ) (agg safe : List (String × ℝ)) :
    List (String × ℝ) :=
  List.zipWith (fun a s => (a.1, θ * s.2 + (1 - θ) * a.2)) agg safe

/-- CLAIM C4 (confirmed). Both blending call sites compute
`Δ = θ·Δ_safe + (1-θ)·Δ_agg` (θ multiplies the safe side at both sites); at
`θ = 0` the blend is exactly the aggressive allocation; at `θ = 1` its values
are exactly the safe allocation's, and the safe allocation is
`P·W_i / ΣW_j` whenever the weights are nonnegative with `ΣW ≠ 0`, and
all-zero when `ΣW = 0`. -/
theorem c4_blend_boundaries (θ P : ℝ) (agg safe : List (String × ℝ))
    (pools : List (String × ℝ × ℝ)) :
    blend_variable θ agg safe = blend_avoidance θ agg safe ∧
    (agg.length = safe.length → blend_variable 0 agg safe = agg) ∧
    (agg.length = safe.length →
      (blend_variable 1 agg safe).map Prod.snd = safe.map Prod.snd) ∧
    ((∀ p ∈ pools, 0 ≤ p.2.2) → (pools.map fun q => q.2.2).sum ≠ 0 →
      compute_safe_allocation pools P =
        pools.map fun p => (p.1, P * p.2.2 / (pools.map fun q => q.2.2).sum)) ∧
    ((pools.map fun q => q.2.2).sum = 0 →
      compute_safe_allocation pools P = pools.map fun p => (p.1, 0)) := by
  refine ⟨?_, ?_, ?_, ?_, ?_⟩
  · unfold blend_variable blend_avoidance
    congr 1
    funext a s
    rw [add_comm]
  · intro hlen
    induction agg generalizing safe with
    | nil => rfl
    | cons a as ih =>
      cases safe with
      | nil => simp at hlen
      | cons s ss =>
        unfold blend_variable
        rw [List.zipWith_cons_cons]
        have h2 := ih ss (by simpa using hlen)
        unfold blend_variable at h2
        rw [h2]
        norm_num
  · intro hlen
    induction agg generalizing safe with
    | nil =>
      cases safe with
      | nil => rfl
      | cons s ss => simp at hlen
    | cons a as ih =>
      cases safe with
      | nil => simp at hlen
      | cons s ss =>
        unfold blend_variable
        rw [List.zipWith_cons_cons, List.map_cons, List.map_cons]
        have h2 := ih ss (by simpa using hlen)
        unfold blend_variable at h2
        rw [h2]
        norm_num
  · intro hW hne
    have hnn : 0 ≤ (pools.map fun q => q.2.2).sum := by
      apply List.sum_nonneg
      intro x hx
      rcases List.mem_map.1 hx with ⟨p, hp, rfl⟩
      exact hW p hp
    unfold compute_safe_allocation
    rw [if_neg (by push_neg; exact lt_of_le_of_ne hnn (Ne.symm hne))]
    apply List.map_congr_left
    intro p hp
    by_cases hpw : 0 < p.2.2
    · rw [if_pos hpw]
    · rw [if_neg hpw]
      have hp0 : p.2.2 = 0 := le_antisymm (not_lt.1 hpw) (hW p hp)
      rw [hp0, mul_zero, zero_div]
  · intro hz
    unfold compute_safe_allocation
    rw [if_pos (le_of_eq hz)]

/-- Witness for C4: concrete one-pool lists exercising the θ = 0 and θ = 1
boundaries and the safe-allocation formula with `ΣW = 2 ≠ 0`. -/
theorem c4_blend_witness :
    blend_variable 0 [(("a" : String), (4 : ℝ))] [("a", 2)] = [("a", 4)] ∧
    (blend_variable 1 [(("a" : String), (4 : ℝ))] [("a", 2)]).map Prod.snd =
      ([(("a" : String), (2 : ℝ))]).map Prod.snd ∧
    compute_safe_allocation [(("a" : String), (1 : ℝ), (2 : ℝ))] 6 =
      [(("a" : String), (1 : ℝ), (2 : ℝ))].map fun p =>
        (p.1, 6 * p.2.2 /
          (([(("a" : String), (1 : ℝ), (2 : ℝ))]).map fun q => q.2.2).sum) := by
  obtain ⟨-, h2, h3, h4, -⟩ := c4_blend_boundaries 0 6
    [(("a" : String), (4 : ℝ))] [("a", 2)] [(("a" : String), (1 : ℝ), (2 : ℝ))]
  refine ⟨h2 rfl, h3 rfl, h4 ?_ ?_⟩
  · intro p hp
    rw [List.mem_singleton] at hp
    subst hp
    norm_num
  · simp

/-- The per-pool input preparation of `run_optimization`
(`scripts/shadow/lib/optimizer.py` lines 126-139): `R = bribes_usd`
unconditionally; on a re-run, a pool whose address appears in
`previous_votes` gets `W = W_total - previous_votes[addr]`, reset to `0`
when negative; every other pool keeps `W = W_total`. -/
noncomputable def prepare_base (pools : List (String × ℝ × ℝ)) (re_run : Bool)
    (previous : String → Option ℝ) : List (String × ℝ × ℝ) :=
  pools.map fun p =>
    match re_run, previous p.1 with
    | true, some prior =>
        (p.1, p.2.1, if p.2.2 - prior < 0 then 0 else p.2.2 - prior)
    | _, _ => p

/-- One pool's adjustment inside `deduct_user_votes`
(`scripts/shadow/lib/optimizer.py` lines 88-96): the first user vote whose
pool matches has its (1e18-scaled) weight subtracted from
`pool_votes_period`; `bribes_usd` is never touched. -/
noncomputable def deduct_pool (votes : List (String × ℝ))
    (p : String × ℝ × ℝ) : String × ℝ × ℝ :=
  match votes.find? (fun v => v.1 == p.1) with
  | some v => (p.1, p.2.1, p.2.2 - v.2 / 10 ^ 18)
  | none => p

/-- `deduct_user_votes` (`scripts/shadow/lib/optimizer.py` lines 83-103),
restricted to its per-pool effect on the pool list. -/
noncomputable def deduct_user_votes (pools : List (String × ℝ × ℝ))
    (votes : List (String × ℝ)) : List (String × ℝ × ℝ) :=
  pools.map (deduct_pool votes)

/-- CLAIM C8 (confirmed). The re-run adjustment replaces each affected
pool's committed weight by `max(W - prior, 0)` and leaves its revenue
unchanged; the historical deduction path (`deduct_user_votes`) also never
touches revenue. -/
theorem c8_rerun_adjustment (pools : List (String × ℝ × ℝ))
    (previous : String → Option ℝ) (votes : List (String × ℝ))
    (i : ℕ) (h : i < pools.length)
    (h2 : i < (prepare_base pools true previous).length)
    (h3 : i < (deduct_user_votes pools votes).length) :
    ((prepare_base pools true previous).get ⟨i, h2⟩).2.1 =
        (pools.get ⟨i, h⟩).2.1 ∧
    ((prepare_base pools true previous).get ⟨i, h2⟩).2.2 =
        (match previous (pools.get ⟨i, h⟩).1 with
         | some prior => max ((pools.get ⟨i, h⟩).2.2 - prior) 0
         | none => (pools.get ⟨i, h⟩).2.2) ∧
    ((deduct_user_votes pools votes).get ⟨i, h3⟩).2.1 =
        (pools.get ⟨i, h⟩).2.1 := by
  refine ⟨?_, ?_, ?_⟩
  · simp only [prepare_base, List.get_eq_getElem, List.getElem_map]
    rcases hprev : previous pools[i].1 with _ | prior <;> simp [hprev]
  · simp only [prepare_base, List.get_eq_getElem, List.getElem_map]
    rcases hprev : previous pools[i].1 with _ | prior
    · simp [hprev]
    · simp only [hprev]
      rcases le_or_lt 0 (pools[i].2.2 - prior) with hge | hlt
      · rw [if_neg (not_lt.2 hge), max_eq_left hge]
      · rw [if_pos hlt, max_eq_right (le_of_lt hlt)]
  · simp only [deduct_user_votes, List.get_eq_getElem, List.getElem_map]
    unfold deduct_pool
    rcases hf : List.find? (fun v => v.1 == pools[i].1) votes with _ | v <;>
      simp [hf]

/-- Witness for C8: pool `("a", R = 5, W = 10)` with a prior vote of `4` on
re-run keeps `R = 5` and gets `W = max(10 - 4, 0) = 6`. -/
theorem c8_rerun_witness :
    ((prepare_base [(("a" : String), (5 : ℝ), (10 : ℝ))] true
        (fun s => if s = "a" then some 4 else none)).get
        ⟨0, by simp [prepare_base]⟩).2.1 = 5 ∧
    ((prepare_base [(("a" : String), (5 : ℝ), (10 : ℝ))] true
        (fun s => if s = "a" then some 4 else none)).get
        ⟨0, by simp [prepare_base]⟩).2.2 = 6 := by
  obtain ⟨hR, hW, -⟩ := c8_rerun_adjustment
    [(("a" : String), (5 : ℝ), (10 : ℝ))]
    (fun s => if s = "a" then some 4 else none) [] 0 (by simp)
    (by simp [prepare_base]) (by simp [deduct_user_votes])
  constructor
  · rw [hR]
    rfl
  · rw [hW]
    norm_num

/-- `ROUND_HALF_UP` of Python `decimal` applied to a real value: round to
nearest with ties going away from zero. -/
noncomputable def roundHalfUp (x : ℝ) : ℤ :=
  if 0 ≤ x then Int.floor (x + 1 / 2) else -Int.floor (-x + 1 / 2)

/-- First index of the maximal value, as computed by
`max(range(len(temp)), key=lambda i: temp[i][2])` in
`scripts/algo/basic_optimizer.py` line 55 (only a strictly greater value
replaces the current best, so the first maximum wins). -/
noncomputable def argmaxIdx : List ℝ → ℕ → ℕ → ℝ → ℕ
  | [], _, bi, _ => bi
  | x :: xs, i, bi, bv =>
      if bv < x then argmaxIdx xs (i + 1) i x else argmaxIdx xs (i + 1) bi bv

/-- `temp[idx_largest][3] += diff` (`scripts/algo/basic_optimizer.py`
line 56): add `d` to the percentage component of entry `i`. -/
noncomputable def addAt : ℕ → ℤ → List (String × String × ℤ) →
    List (String × String × ℤ)
  | _, _, [] => []
  | 0, d, e :: es => (e.1, e.2.1, e.2.2 + d) :: es
  | n + 1, d, e :: es => e :: addAt n d es

/-- The raw rounded percentages of `allocate_percentages`
(`scripts/algo/basic_optimizer.py` lines 46-50):
`pct = int((score/total * 100).to_integral_value(ROUND_HALF_UP))`. -/
noncomputable def pctsOf (scores : List (String × String × ℝ)) :
    List (String × String × ℤ) :=
  scores.map fun s =>
    (s.1, s.2.1, roundHalfUp (s.2.2 / (scores.map fun s2 => s2.2.2).sum * 100))

/-- `idx_largest` of `allocate_percentages`: the first index of the largest
score. -/
noncomputable def idxLargest (scores : List (String × String × ℝ)) : ℕ :=
  match scores.map fun s => s.2.2 with
  | [] => 0
  | x :: xs => argmaxIdx xs 1 0 x

/-- `allocate_percentages(scores)` (`scripts/algo/basic_optimizer.py`
lines 33-58): zeros when the total score is `0`; otherwise round each share
half-up and, when the rounded percentages do not sum to `100`, add the
difference to the entry with the largest score. -/
noncomputable def allocate_percentages (scores : List (String × String × ℝ)) :
    List (String × String × ℤ) :=
  if (scores.map fun s => s.2.2).sum = 0 then
    scores.map fun s => (s.1, s.2.1, (0 : ℤ))
  else if 100 - ((pctsOf scores).map fun e => e.2.2).sum = 0 then pctsOf scores
  else addAt (idxLargest scores)
    (100 - ((pctsOf scores).map fun e => e.2.2).sum) (pctsOf scores)

/-- Adding `d` at an in-range index shifts the percentage sum by `d`. -/
theorem addAt_sum : ∀ (l : List (String × String × ℤ)) (i : ℕ) (d : ℤ),
    i < l.length →
    ((addAt i d l).map fun e => e.2.2).sum = ((l.map fun e => e.2.2).sum) + d := by
  intro l
  induction l with
  | nil => intro i d h; simp at h
  | cons e es ih =>
    intro i d h
    cases i with
    | zero =>
      simp only [addAt, List.map_cons, List.sum_cons]
      ring
    | succ n =>
      simp only [addAt, List.map_cons, List.sum_cons]
      rw [ih n d (by simpa using h)]
      ring

/-- The running argmax stays below any bound dominating both the current
best index and the end of the scan. -/
theorem argmaxIdx_lt : ∀ (xs : List ℝ) (i bi : ℕ) (bv : ℝ) (n : ℕ),
    bi < n → i + xs.length ≤ n → argmaxIdx xs i bi bv < n := by
  intro xs
  induction xs with
  | nil =>
    intro i bi bv n h1 _
    simpa [argmaxIdx] using h1
  | cons x rest ih =>
    intro i bi bv n h1 h2
    simp only [List.length_cons] at h2
    unfold argmaxIdx
    split
    · exact ih (i + 1) i x n (by omega) (by omega)
    · exact ih (i + 1) bi bv n h1 (by omega)

/-- AMENDED CLAIM C9.  In `basic_optimizer.allocate_percentages` the integer
percentages are rounded half-up shares of `score/Σscore` and the
designated-entry (largest-score) correction makes them sum to exactly `100`
whenever the total score is nonzero.  (The equal-marginal output formatters
round `Δ/ΣΔ` per pool WITHOUT any correction and can sum to 99 — see the
counterexample.) -/
theorem c9_basic_sums_to_100 (scores : List (String × String × ℝ))
    (hne : scores ≠ []) (htot : (scores.map fun s => s.2.2).sum ≠ 0) :
    ((allocate_percentages scores).map fun e => e.2.2).sum = 100 := by
  unfold allocate_percentages
  rw [if_neg htot]
  by_cases hd : 100 - ((pctsOf scores).map fun e => e.2.2).sum = 0
  · rw [if_pos hd]
    omega
  · rw [if_neg hd]
    have hlen : idxLargest scores < (pctsOf scores).length := by
      cases scores with
      | nil => exact absurd rfl hne
      | cons s ss =>
        have h1 : idxLargest (s :: ss) =
            argmaxIdx (ss.map fun s2 => s2.2.2) 1 0 s.2.2 := by
          unfold idxLargest
          rw [List.map_cons]
        have h2 : (pctsOf (s :: ss)).length = ss.length + 1 := by
          unfold pctsOf
          simp
        rw [h1, h2]
        exact argmaxIdx_lt _ 1 0 _ _ (by omega)
          (by simp only [List.length_map]; omega)
    rw [addAt_sum _ _ _ hlen]
    omega

/-- Witness for the amended C9: two scores `3` and `1` (total `4`) give
rounded shares `75` and `25`, summing to exactly `100`. -/
theorem c9_basic_witness :
    ((allocate_percentages [("s", "a", (3 : ℝ)), ("t", "b", 1)]).map
        fun e => e.2.2).sum = 100 :=
  c9_basic_sums_to_100 [("s", "a", (3 : ℝ)), ("t", "b", 1)] (by simp)
    (by norm_num)

/-- The percentage rows built by `main` of
`scripts/algo/advanced_optimizer_aggressive.py` (lines 136-150, same pattern
at `advanced_optimizer_with_avoidance.py` lines 227-240 and in
`run_optimization`): skip `Δ ≤ 0`, emit
`int((Δ/total*100).to_integral_value(ROUND_HALF_UP))`; no drift correction is
applied afterwards. -/
noncomputable def formatRows (total : ℝ) : List (String × ℝ) → List (String × ℤ)
  | [] => []
  | a :: rest =>
      if a.2 ≤ 0 then formatRows total rest
      else (a.1, roundHalfUp (a.2 / total * 100)) :: formatRows total rest

/-- The percent layer of the solver-based formatters: rows against the total
of the allocation itself (`total_alloc = sum(Δ)`). -/
noncomputable def format_percents (alloc : List (String × ℝ)) :
    List (String × ℤ) :=
  formatRows ((alloc.map Prod.snd).sum) alloc

/-- COUNTEREXAMPLE to C9 as stated: three equal deltas `1, 1, 1`
(`Σ delta = 3 > 0`) are each rounded to `33`, and the solver-based output
path emits percentages summing to `99`, not `100`; no drift correction
exists on that path. -/
theorem c9_counterexample :
    ((format_percents [(("a" : String), (1 : ℝ)), ("b", 1), ("c", 1)]).map
        Prod.snd).sum = 99 ∧ (99 : ℤ) ≠ 100 := by
  have hfl : Int.floor ((203 : ℝ) / 6) = 33 := by
    apply Int.floor_eq_iff.2
    constructor <;> norm_num
  have htot : (([(("a" : String), (1 : ℝ)), ("b", 1), ("c", 1)]).map
      Prod.snd).sum = 3 := by
    norm_num
  constructor
  · unfold format_percents
    rw [htot]
    norm_num [formatRows, roundHalfUp,
      show ((1 : ℝ) / 3 * 100 + 1 / 2) = 203 / 6 by norm_num, hfl]
  · norm_num

/-- Python `Decimal.__pow__` as used at
`scripts/algo/advanced_optimizer_with_avoidance.py` line 199, modelled as
exact real `rpow` — except for `0 ** 0`, where the `decimal` module signals
`InvalidOperation` (both operands zero) and the script crashes; that case is
`none`. -/
noncomputable def decPow (x e : ℝ) : Option ℝ :=
  if x = 0 ∧ e = 0 then none else some (x ^ e)

/-- The per-pool avoidance factor
(`scripts/algo/advanced_optimizer_with_avoidance.py` lines 195-199):
`leftover = 1 - relay_score` clamped below at `0`, then
`factor = leftover ** exponent`. -/
noncomputable def avoidance_factor (exponent ρ : ℝ) : Option ℝ :=
  decPow (if 1 - ρ < 0 then 0 else 1 - ρ) exponent

/-- The effective-pool construction of `main`
(`scripts/algo/advanced_optimizer_with_avoidance.py` lines 183-207):
`exponent = 2α` and each pool becomes
`(pool, R * factor, W * factor)`; a raised `InvalidOperation` anywhere
aborts the whole run (`none`). -/
noncomputable def build_effective_pools (α : ℝ) (score : String → ℝ) :
    List (String × ℝ × ℝ) → Option (List (String × ℝ × ℝ))
  | [] => some []
  | p :: ps =>
      match avoidance_factor (2 * α) (score p.1),
            build_effective_pools α score ps with
      | some f, some rest => some ((p.1, p.2.1 * f, p.2.2 * f) :: rest)
      | _, _ => none

/-- Shape of a successful effective-pool construction: entrywise, each pool
is scaled by its own factor. -/
theorem build_effective_pools_get (α : ℝ) (score : String → ℝ) :
    ∀ (pools eff : List (String × ℝ × ℝ)),
      build_effective_pools α score pools = some eff →
      eff.length = pools.length ∧
      ∀ (i : ℕ) (h : i < pools.length) (h2 : i < eff.length),
        ∃ f, avoidance_factor (2 * α) (score (pools.get ⟨i, h⟩).1) = some f ∧
          eff.get ⟨i, h2⟩ = ((pools.get ⟨i, h⟩).1,
            (pools.get ⟨i, h⟩).2.1 * f, (pools.get ⟨i, h⟩).2.2 * f) := by
  intro pools
  induction pools with
  | nil =>
    intro eff h
    have heff : eff = [] := by
      have h0 : some ([] : List (String × ℝ × ℝ)) = some eff := h
      exact (Option.some_injective _ h0).symm
    subst heff
    exact ⟨rfl, by intro i hi; simp at hi⟩
  | cons p ps ih =>
    intro eff h
    unfold build_effective_pools at h
    rcases hf : avoidance_factor (2 * α) (score p.1) with _ | f <;> rw [hf] at h
    · exact Option.noConfusion h
    · rcases hr : build_effective_pools α score ps with _ | rest <;> rw [hr] at h
      · exact Option.noConfusion h
      · have heff : eff = (p.1, p.2.1 * f, p.2.2 * f) :: rest :=
          (Option.some_injective _ h).symm
        subst heff
        obtain ⟨hlen, hget⟩ := ih rest hr
        refine ⟨by simp [hlen], ?_⟩
        intro i h1 h2
        cases i with
        | zero => exact ⟨f, hf, rfl⟩
        | succ n =>
          obtain ⟨g, hg1, hg2⟩ := hget n (by simpa using h1) (by simpa using h2)
          exact ⟨g, hg1, hg2⟩

/-- AMENDED CLAIM C5.  For `ρ ∈ [0,1]` the avoidance factor is
`clamp(1-ρ,0,1)^(2α) = (1-ρ)^(2α)` and it multiplies both `R` and `W` —
EXCEPT at `ρ = 1, α = 0`, where `0 ** 0` raises `InvalidOperation` (see the
counterexample).  At `α = 0` the construction is the identity on every pool
list whose scores are all `< 1`; at `α = 1` a pool with `ρ = 1` gets factor
`0`, so its effective revenue is `0` and the solver allocates it `Δ = 0`. -/
theorem c5_avoidance_penalty :
    (∀ α ρ : ℝ, 0 ≤ ρ → ρ ≤ 1 → ¬(ρ = 1 ∧ α = 0) →
      avoidance_factor (2 * α) ρ = some ((1 - ρ) ^ (2 * α))) ∧
    (∀ (score : String → ℝ) (pools : List (String × ℝ × ℝ)),
      (∀ p ∈ pools, score p.1 < 1) →
      build_effective_pools 0 score pools = some pools) ∧
    (∀ (score : String → ℝ) (pools eff : List (String × ℝ × ℝ)) (P : ℝ)
      (out : List (String × ℝ)) (i : ℕ) (h : i < pools.length),
      score (pools.get ⟨i, h⟩).1 = 1 →
      build_effective_pools 1 score pools = some eff →
      equal_marginal eff P = some out →
      ∀ h2 : i < out.length, (out.get ⟨i, h2⟩).2 = 0) := by
  refine ⟨?_, ?_, ?_⟩
  · intro α ρ h0 h1 hne
    unfold avoidance_factor decPow
    have hcond : ¬((1 - ρ) = 0 ∧ 2 * α = 0) := by
      rintro ⟨ha, hb⟩
      exact hne ⟨by linarith, by linarith⟩
    rw [if_neg (by linarith : ¬(1 - ρ < 0)), if_neg hcond]
  · intro score pools
    induction pools with
    | nil => intro _; rfl
    | cons p ps ih =>
      intro hall
      unfold build_effective_pools
      have hpos : 0 < 1 - score p.1 := by
        have := hall p (List.mem_cons_self p ps)
        linarith
      have hfac : avoidance_factor (2 * 0) (score p.1) = some 1 := by
        unfold avoidance_factor decPow
        rw [if_neg (by linarith : ¬(1 - score p.1 < 0)),
          if_neg (by rintro ⟨ha, -⟩; linarith)]
        rw [show (2 : ℝ) * 0 = 0 by ring, Real.rpow_zero]
      rw [hfac, ih (fun q hq => hall q (List.mem_cons_of_mem _ hq))]
      simp
  · intro score pools eff P out i h hscore hbuild hok h2
    obtain ⟨hlen, hget⟩ := build_effective_pools_get 1 score pools eff hbuild
    have hie : i < eff.length := by rw [hlen]; exact h
    obtain ⟨f, hf, hentry⟩ := hget i h hie
    rw [hscore] at hf
    have hfac0 : avoidance_factor (2 * 1) 1 = some 0 := by
      unfold avoidance_factor decPow
      rw [if_neg (by norm_num : ¬((1 : ℝ) - 1 < 0)),
        if_neg (by rintro ⟨-, hb⟩; norm_num at hb)]
      rw [show ((1 : ℝ) - 1) = 0 by norm_num, Real.zero_rpow (by norm_num)]
    have hf0 : f = 0 := by
      have hcomb : some (0 : ℝ) = some f := hfac0.symm.trans hf
      exact (Option.some_injective _ hcomb).symm
    apply equal_marginal_entry_zero eff P out hok i h2 hie
    left
    rw [hentry, hf0]
    show (pools.get ⟨i, h⟩).2.1 * 0 ≤ 0
    rw [mul_zero]

/-- COUNTEREXAMPLE to C5 as stated: at avoidance strength `α = 0` with score
`ρ = 1`, the factor computation is `0 ** 0`, which the `decimal` module
rejects as an invalid operation — the run aborts instead of reproducing the
unpenalized allocation. -/
theorem c5_counterexample :
    build_effective_pools 0 (fun _ => 1)
      [(("a" : String), (1 : ℝ), (1 : ℝ))] = none := by
  unfold build_effective_pools
  have hfac : avoidance_factor (2 * 0) ((fun _ : String => (1 : ℝ)) "a") = none := by
    unfold avoidance_factor decPow
    rw [if_neg (by norm_num : ¬((1 : ℝ) - 1 < 0)), if_pos (by norm_num)]
  rw [hfac]

/-- Witness for the amended C5: factor formula at `α = 1/2, ρ = 1/4`;
identity construction at `α = 0` with score `0`; and a fully-suppressed pool
(`α = 1, ρ = 1`) receiving delta `0` from the solver. -/
theorem c5_avoidance_witness :
    avoidance_factor (2 * (1 / 2)) (1 / 4) =
      some (((1 : ℝ) - 1 / 4) ^ ((2 : ℝ) * (1 / 2))) ∧
    build_effective_pools 0 (fun _ => 0)
      [(("a" : String), (2 : ℝ), (3 : ℝ))] =
      some [(("a" : String), (2 : ℝ), (3 : ℝ))] ∧
    (([(("a" : String), (0 : ℝ))] : List (String × ℝ)).get ⟨0, by simp⟩).2 = 0 := by
  obtain ⟨h1, h2, h3⟩ := c5_avoidance_penalty
  refine ⟨?_, ?_, ?_⟩
  · exact h1 (1 / 2) (1 / 4) (by norm_num) (by norm_num)
      (by rintro ⟨hr, -⟩; norm_num at hr)
  · exact h2 (fun _ => 0) _ (by intro p hp; norm_num)
  · have hbuild : build_effective_pools 1 (fun _ => 1)
        [(("a" : String), (5 : ℝ), (7 : ℝ))] =
        some [(("a" : String), (0 : ℝ), (0 : ℝ))] := by
      unfold build_effective_pools
      have hfac : avoidance_factor (2 * 1) ((fun _ : String => (1 : ℝ)) "a") =
          some 0 := by
        unfold avoidance_factor decPow
        rw [if_neg (by norm_num : ¬((1 : ℝ) - 1 < 0)),
          if_neg (by rintro ⟨-, hb⟩; norm_num at hb)]
        rw [show ((1 : ℝ) - 1) = 0 by norm_num, Real.zero_rpow (by norm_num)]
      rw [hfac]
      show some [(("a" : String), (5 : ℝ) * 0, (7 : ℝ) * 0)] = _
      norm_num
    have hok : equal_marginal [(("a" : String), (0 : ℝ), (0 : ℝ))] 9 =
        some [("a", 0)] := by
      unfold equal_marginal
      rw [if_pos (by rw [activeOf_cons, if_neg (by norm_num), activeOf_nil])]
      simp
    exact h3 (fun _ => 1) [(("a" : String), (5 : ℝ), (7 : ℝ))]
      [(("a" : String), (0 : ℝ), (0 : ℝ))] 9 [("a", 0)] 0 (by simp) rfl
      hbuild hok (by simp)
